import Mathlib

/-!
Verification of the leveled-logging formatting engine of rust-simple-httpd
(src/util.rs and src/log/mod.rs), shallowly embedded in Lean 4.

Modelling conventions:
- `u8` bytes and `usize` values are `Nat`.
- Rust `format!` width/alignment padding is embedded explicitly
  (space fill, no truncation, chars counted), matching `std::fmt`.
- The terminal-attachment queries `std::io::stdout().is_terminal()` and
  `std::io::stderr().is_terminal()` are passed in as explicit booleans.
- The current time string returned by `new_time_string()` is passed in as
  an explicit parameter; only its characters/length matter to the claims.
- Rust's `eprintln!`/`println!` are modelled as producing the printed line
  (with its trailing newline) as a `String`.
-/

namespace Httpd

/-- The `Level` enum from src/log/mod.rs, generated by `enum_with_helpers!`
with variants in declaration order `Error, Warn, Info, Verb, Debug, Trace`
(default `Warn`). -/
inductive Level where
  | Error
  | Warn
  | Info
  | Verb
  | Debug
  | Trace
deriving DecidableEq, Repr, Fintype

/-- The discriminant of each variant (`repr(usize)`, values assigned in
declaration order starting at 0), i.e. `Level::X as usize`. -/
def Level.ord : Level → Nat
  | .Error => 0
  | .Warn => 1
  | .Info => 2
  | .Verb => 3
  | .Debug => 4
  | .Trace => 5

/-- Rust `#[derive(Default)]`-equivalent: `default: Warn` in the macro. -/
def Level.default_level : Level := Level.Warn

/-- The strict comparison `a < b` produced by Rust's
`derive(PartialOrd, Ord)` on the enum: comparison of discriminants. -/
def level_lt (a b : Level) : Bool := a.ord < b.ord

/-- The comparison `a <= b` produced by `derive(PartialOrd, Ord)`. -/
def level_le (a b : Level) : Bool := a.ord ≤ b.ord

/-- The comparison `a >= b` produced by `derive(PartialOrd, Ord)`,
used by the run-time level gates (`config.log_level >= Level::X`). -/
def level_ge (a b : Level) : Bool := b.ord ≤ a.ord

/-- `stringify!($variant)`: the declared (capitalized) variant name. This is
also what `Level`'s `Display` renders, since it formats the `Debug` name
through `format_with_options` with no ambient width request. -/
def levelName : Level → String
  | .Error => "Error"
  | .Warn => "Warn"
  | .Info => "Info"
  | .Verb => "Verb"
  | .Debug => "Debug"
  | .Trace => "Trace"

/-- Embedding of Rust `str::to_lowercase` as used on the ASCII variant
names and their candidate spellings: per-character lowercasing. -/
def strLower (s : String) : String := ⟨s.data.map Char.toLower⟩

/-- `Level::from_usize` generated by `enum_with_helpers!`: guard chain
`x if x == $name::$variant as usize => Some(...)` in declaration order,
`None` otherwise. -/
def Level.from_usize (u : Nat) : Option Level :=
  if u = Level.ord .Error then some .Error
  else if u = Level.ord .Warn then some .Warn
  else if u = Level.ord .Info then some .Info
  else if u = Level.ord .Verb then some .Verb
  else if u = Level.ord .Debug then some .Debug
  else if u = Level.ord .Trace then some .Trace
  else none

/-- `Level::from_str` generated by `enum_with_helpers!`: compares
`s.to_lowercase()` against `stringify!($variant).to_lowercase()` for each
variant in declaration order, `None` otherwise. -/
def Level.from_str (s : String) : Option Level :=
  if strLower s = strLower (levelName .Error) then some .Error
  else if strLower s = strLower (levelName .Warn) then some .Warn
  else if strLower s = strLower (levelName .Info) then some .Info
  else if strLower s = strLower (levelName .Verb) then some .Verb
  else if strLower s = strLower (levelName .Debug) then some .Debug
  else if strLower s = strLower (levelName .Trace) then some .Trace
  else none

/-- Modelled from the spec: the configuration object (src/config.rs is not
part of the analyzed sources). The spec describes it as an opaque struct
exposing exactly the three fields consumed by this core:
`log_level`, `colored_output`, `colored_output_forced`. -/
structure Config where
  log_level : Level
  colored_output : Bool
  colored_output_forced : Bool
deriving DecidableEq, Repr

/-- `util::enable_terminal_colors`. The two `is_terminal()` queries are
passed in as explicit booleans. -/
def enable_terminal_colors (config : Config) (is_tty_stdout is_tty_stderr : Bool) : Bool :=
  if config.colored_output_forced then true
  else config.colored_output && is_tty_stdout && is_tty_stderr

/-- A string of `n` spaces (`" ".repeat(n)` / `std::fmt` space fill). -/
def spaces (n : Nat) : String := ⟨List.replicate n ' '⟩

/-- Rust `format!("{v:<w$}")`: left-aligned, pad on the right with spaces
to width `w`, never truncating. -/
def padRightTo (w : Nat) (s : String) : String := s ++ spaces (w - s.length)

/-- Rust `format!("{v:>w$}")`: right-aligned, pad on the left with spaces
to width `w`, never truncating. -/
def padLeftTo (w : Nat) (s : String) : String := spaces (w - s.length) ++ s

/-- Rust `format!("{v:^w$}")`: centered, extra space going to the right. -/
def padCenterTo (w : Nat) (s : String) : String :=
  spaces ((w - s.length) / 2) ++ s ++ spaces (w - s.length - (w - s.length) / 2)

/-- `fmt::Alignment`. -/
inductive Alignment where
  | Left
  | Right
  | Center
deriving DecidableEq, Repr

/-- `util::format_with_options`: if the ambient formatter requests a width,
pad the rendered value per the requested alignment (defaulting to `Left`
via `f.align().unwrap_or(fmt::Alignment::Left)`); otherwise write the
value unchanged. `value` is the value's natural rendering. -/
def format_with_options (value : String) (width : Option Nat) (align : Option Alignment) : String :=
  match width with
  | some w =>
    match align.getD Alignment.Left with
    | .Left => padRightTo w value
    | .Right => padLeftTo w value
    | .Center => padCenterTo w value
  | none => value

/- ============== prefix formatting and Record display ============== -/

/-- `util::format_log_message_prefix` (renamed here): produces
`"[<time> <level>]: "`, padding the level field left-aligned to 14
characters when the level text contains ANSI color bytes and to 5
characters otherwise (`format!("[{time} {level:<14}]: ")` /
`format!("[{time} {level:<5}]: ")`). -/
def format_log_message_head (time level : String) (contains_ansi_color : Bool) : String :=
  if contains_ansi_color then "[" ++ time ++ " " ++ padRightTo 14 level ++ "]: "
  else "[" ++ time ++ " " ++ padRightTo 5 level ++ "]: "

/-- `color::ColorizedText`: a rendered string plus the byte length of the
embedded color-control sequences. -/
structure ColorizedText where
  text : String
  color_code_length : Nat
deriving DecidableEq, Repr

/-- Modelled from the spec: the color subsystem (`crate::color`) is not
among the analyzed sources. Per the spec, colorizing wraps the text in a
fixed-length ANSI escape pair (set-color `ESC[<code>m`, reset `ESC[0m`),
and `ColorizedText` records the rendered string together with the byte
length of the embedded escape sequences. -/
def colorize_ansi (code : Nat) (s : String) : ColorizedText :=
  ColorizedText.mk ("\x1b[" ++ Nat.repr code ++ "m" ++ s ++ "\x1b[0m")
    (("\x1b[" ++ Nat.repr code ++ "m").length + "\x1b[0m".length)

/-- `util::log_level_to_string_colorized`: each level's display text in its
fixed color (Error red 31, Warn yellow 33, Info green 32, Verb magenta 35,
Debug blue 34, Trace cyan 36). -/
def log_level_to_string_colorized (level : Level) : ColorizedText :=
  match level with
  | .Error => colorize_ansi 31 (levelName level)
  | .Warn => colorize_ansi 33 (levelName level)
  | .Info => colorize_ansi 32 (levelName level)
  | .Verb => colorize_ansi 35 (levelName level)
  | .Debug => colorize_ansi 34 (levelName level)
  | .Trace => colorize_ansi 36 (levelName level)

/-- `impl fmt::Display for Log` under `#[cfg(feature = "color")]`:
when `config.colored_output` is set the colorized level text is used,
otherwise the plain display string; in both cases
`format_log_message_prefix` is called with `contains_ansi_color = true`;
the prefix and message then pass through `format_with_options` with the
ambient width/alignment request. -/
def log_fmt_color_build (cfg : Config) (time message : String) (level : Level)
    (width : Option Nat) (align : Option Alignment) : String :=
  let level_text :=
    if cfg.colored_output then (log_level_to_string_colorized level).text
    else levelName level
  format_with_options (format_log_message_head time level_text true ++ message) width align

/-- `impl fmt::Display for Log` under `#[cfg(not(feature = "color"))]`:
the plain display string, with `format_log_message_prefix` called with
`contains_ansi_color = false`. -/
def log_fmt_nocolor_build (cfg : Config) (time message : String) (level : Level)
    (width : Option Nat) (align : Option Alignment) : String :=
  let _ := cfg
  format_with_options (format_log_message_head time (levelName level) false ++ message) width align

/-- `log::find_tty_and_update_from`: disable `colored_output` when
`enable_terminal_colors` resolves to false. -/
def find_tty_and_update_from (config : Config) (o e : Bool) : Config :=
  if !enable_terminal_colors config o e then
    Config.mk config.log_level false config.colored_output_forced
  else config

/-- One of the thin dispatch functions `log::error/warn/info/verb/debug/trace`:
downgrade the configuration's color flag if no terminal is attached, render
the Record, print it with a trailing newline. Rendering here is the
`cfg(not(feature = "color"))` Display. -/
def dispatch_line (config : Config) (text : String) (level : Level) (time : String)
    (o e : Bool) : String :=
  let config := find_tty_and_update_from config o e
  log_fmt_nocolor_build config time text level none none ++ "\n"

/-- One of the emission macros `error!`/`warn!`/`info!`/`verb!`/`debug!`/
`trace!`: the whole body exists only when the level's build feature is
enabled, and at run time the dispatch function is invoked only when
`config.log_level >= Level::X` for the macro's level `X`. The result is
the line written to the stream, or `none` when nothing is computed or
written. -/
def emit_at_level (feature_compiled : Bool) (level : Level) (config : Config)
    (text time : String) (o e : Bool) : Option String :=
  if feature_compiled then
    if level_ge config.log_level level then
      some (dispatch_line config text level time o e)
    else none
  else none

/- ============== hex dump (highlighted_hex_vec) ============== -/

/-- One lowercase hexadecimal digit (values 0–9 map to `'0'`–`'9'`,
10–15 to `'a'`–`'f'`). -/
def hexDigit (n : Nat) : Char :=
  if n < 10 then Char.ofNat (48 + n) else Char.ofNat (87 + n)

/-- Rust `format!("{byte:02x}")` for a `u8`: two-digit lowercase
hexadecimal, zero-padded to width 2 (a `u8` is below 0x100, so the
rendering is always exactly two digits). -/
def hex2 (b : Nat) : String := ⟨[hexDigit (b / 16), hexDigit (b % 16)]⟩

/-- Value of one lowercase hexadecimal digit character, if it is one. -/
def hexCharVal (c : Char) : Option Nat :=
  if 48 ≤ c.toNat ∧ c.toNat ≤ 57 then some (c.toNat - 48)
  else if 97 ≤ c.toNat ∧ c.toNat ≤ 102 then some (c.toNat - 87)
  else none

/-- Decode a two-character lowercase-hex string back to its value. -/
def hex2Val (s : String) : Option Nat :=
  match s.data with
  | [c1, c2] =>
    match hexCharVal c1, hexCharVal c2 with
    | some a, some b => some (16 * a + b)
    | _, _ => none
  | _ => none

/-- Is `c` a lowercase hexadecimal digit character? -/
def isLowerHexChar (c : Char) : Bool :=
  (48 ≤ c.toNat && c.toNat ≤ 57) || (97 ≤ c.toNat && c.toNat ≤ 102)

/-- `util::write_formatted_eol_byte` under `#[cfg(not(feature = "color"))]`
(the `config` argument is received and ignored, as in the source): CR
renders as the literal two-character escape `\r`, LF as `\n`, every other
byte as two-digit lowercase hex. -/
def write_formatted_eol_byte (byte : Nat) (config : Config) : String :=
  let _ := config
  if byte = 13 then "\\r"
  else if byte = 10 then "\\n"
  else hex2 byte

/-- `util::write_formatted_eol_byte` under `#[cfg(feature = "color")]`:
as the plain variant, but the CR/LF escapes are colorized yellow
(`Color::Yellow`, ANSI code 33) when `enable_terminal_colors` resolves
to true. -/
def write_formatted_eol_byte_color (byte : Nat) (config : Config) (o e : Bool) : String :=
  let colors_on := enable_terminal_colors config o e
  if byte = 13 then (if colors_on then (colorize_ansi 33 "\\r").text else "\\r")
  else if byte = 10 then (if colors_on then (colorize_ansi 33 "\\n").text else "\\n")
  else hex2 byte

/-- `util::num_digits`: digit count of `n` via its decimal string
rendering (`n.to_string().chars().count()`). -/
def num_digits (n : Nat) : Nat := (Nat.repr n).length

/-- Rust `format!("{n:w$}")` for an unsigned integer: right-aligned,
space-padded to width `w`. -/
def padNum (w n : Nat) : String := padLeftTo w (Nat.repr n)

/-- The group header emitted at every index divisible by 8: a newline,
indentation of `plen` spaces (the Trace-prefix length), the running index
space-padded to `digits` columns, and `" = "`. -/
def hexHeader (plen digits offset i : Nat) : String :=
  "\n" ++ spaces plen ++ padNum digits (i + offset) ++ " = "

/-- The loop body of `highlighted_hex_vec`, element by element starting at
`index = i`: a separating space for every nonzero index, the group header
at every index divisible by 8, then the byte's rendering. -/
def hexLoop (cfg : Config) (plen digits offset : Nat) : Nat → List Nat → String
  | _, [] => ""
  | i, b :: bs =>
    (if i ≠ 0 then " " else "") ++
      (if i % 8 = 0 then hexHeader plen digits offset i else "") ++
      write_formatted_eol_byte b cfg ++
      hexLoop cfg plen digits offset (i + 1) bs

/-- `util::highlighted_hex_vec` in the `cfg(not(feature = "color"))` build:
output starts with `"["`; `digits` is the digit count of
`index_offset + vec.len()`; the indentation width is the length of the
prefix a Trace-level record would have produced
(`format_log_message_prefix(&new_time_string(), &Level::Trace.to_string(), false)`),
with the time string passed in explicitly. -/
def highlighted_hex_vec (vec : List Nat) (index_offset : Nat) (cfg : Config)
    (time : String) : String :=
  let digits := num_digits (index_offset + vec.length)
  let plen := (format_log_message_head time (levelName Level.Trace) false).length
  "[" ++ hexLoop cfg plen digits index_offset 0 vec

/-- `pat` occurs contiguously inside `s`. -/
abbrev substrOf (pat s : String) : Prop := pat.data <:+: s.data

/- ============== hex dump line structure (for C10) ============== -/

/-- The rendering of a run of bytes each preceded by its separating space
(loop indices with `index % 8 ≠ 0`, hence `index ≠ 0`). -/
def bytesRest (cfg : Config) : List Nat → String
  | [] => ""
  | b :: bs => " " ++ write_formatted_eol_byte b cfg ++ bytesRest cfg bs

/-- The byte portion of one dump line: the group's first byte, then each
further byte preceded by its separating space. -/
def bytesLine (cfg : Config) : List Nat → String
  | [] => ""
  | b :: bs => write_formatted_eol_byte b cfg ++ bytesRest cfg bs

/-- One dump line without its leading newline: indentation, the
space-padded running index of the group's first byte (index `8 * k`),
`" = "`, then the group's bytes. -/
def lineBody (cfg : Config) (plen digits offset k : Nat) (g : List Nat) : String :=
  spaces plen ++ padNum digits (8 * k + offset) ++ " = " ++ bytesLine cfg g

/-- The dump lines from group `k` on. Every line except the last ends with
the separating space contributed by the next group's first byte, because
the loop pushes that space before the next group's newline and header. -/
def hexLinesFrom (cfg : Config) (plen digits offset : Nat) : Nat → List Nat → List String
  | _, [] => []
  | k, b :: bs =>
    if bs.drop 7 = [] then [lineBody cfg plen digits offset k (b :: bs.take 7)]
    else (lineBody cfg plen digits offset k (b :: bs.take 7) ++ " ") ::
      hexLinesFrom cfg plen digits offset (k + 1) (bs.drop 7)
termination_by _ l => l.length
decreasing_by
  simp only [List.length_cons, List.length_drop]
  omega

/-- Split a character list at every occurrence of `c` (for `c = '\n'`:
the lines of a string). -/
def splitChar (c : Char) : List Char → List (List Char)
  | [] => [[]]
  | a :: rest =>
    if a = c then [] :: splitChar c rest
    else
      match splitChar c rest with
      | [] => [[a]]
      | l :: ls => (a :: l) :: ls

/-- The lines of the hex dump output. -/
def hexOutputLines (vec : List Nat) (offset : Nat) (cfg : Config) (time : String) :
    List (List Char) :=
  splitChar '\n' (highlighted_hex_vec vec offset cfg time).data

/- ========================= C2 ========================= -/

/-- C2 (counterexample): the claim says that for the comparison operators
defined on `Level`, `Error` compares strictly greater than `Warn`. In the
code, `derive(PartialOrd, Ord)` compares discriminants, and `Error` has
discriminant 0 while `Warn` has 1, so `Warn < Error` is false and in fact
`Error < Warn` holds strictly. -/
theorem level_order_error_not_gt_warn :
    ¬ (level_lt Level.Warn Level.Error = true) ∧ level_lt Level.Error Level.Warn = true := by
  decide

/-- C2 (amended): the ordering on `Level` is total and transitive, and for
the derived comparison operators the strict chain runs
`Error < Warn < Info < Verb < Debug < Trace` (comparison is by declaration
ordinal, `Error` being numerically smallest though semantically the
highest severity). -/
theorem level_order_total_transitive_chain :
    (∀ a b : Level, level_le a b = true ∨ level_le b a = true) ∧
    (∀ a b c : Level, level_le a b = true → level_le b c = true → level_le a c = true) ∧
    (level_lt .Error .Warn = true ∧ level_lt .Warn .Info = true ∧
     level_lt .Info .Verb = true ∧ level_lt .Verb .Debug = true ∧
     level_lt .Debug .Trace = true) := by
  refine ⟨?_, ?_, ?_⟩ <;> decide

/-- C2 (witness): the transitivity part applied at `Error ≤ Warn ≤ Info`. -/
theorem level_order_total_transitive_chain_witness :
    level_le Level.Error Level.Warn = true ∧ level_le Level.Warn Level.Info = true ∧
    level_le Level.Error Level.Info = true :=
  ⟨by decide, by decide,
    level_order_total_transitive_chain.2.1 Level.Error Level.Warn Level.Info
      (by decide) (by decide)⟩

/- ========================= C5 ========================= -/

/-- C5: `enable_terminal_colors` returns true whenever
`colored_output_forced` is set, regardless of `colored_output` and of
terminal attachment; otherwise it returns the conjunction of
`colored_output`, stdout-is-a-terminal and stderr-is-a-terminal. -/
theorem enable_terminal_colors_resolve :
    (∀ (cfg : Config) (o e : Bool), cfg.colored_output_forced = true →
      enable_terminal_colors cfg o e = true) ∧
    (∀ (cfg : Config) (o e : Bool), cfg.colored_output_forced = false →
      enable_terminal_colors cfg o e = (cfg.colored_output && o && e)) := by
  constructor
  · intro cfg o e h
    simp [enable_terminal_colors, h]
  · intro cfg o e h
    simp [enable_terminal_colors, h]

/-- C5 (witness): forced colors win even with `colored_output = false` and
no terminal attached; unforced colors need both terminals. -/
theorem enable_terminal_colors_resolve_witness :
    enable_terminal_colors (Config.mk Level.Warn false true) false false = true ∧
    enable_terminal_colors (Config.mk Level.Warn true false) true false = (true && true && false) :=
  ⟨enable_terminal_colors_resolve.1 (Config.mk Level.Warn false true) false false rfl,
   enable_terminal_colors_resolve.2 (Config.mk Level.Warn true false) true false rfl⟩

/- ========================= C6 ========================= -/

/-- C6: `from_usize` round-trips every variant's ordinal and returns `none`
for every out-of-range input (the function is total, so it cannot panic). -/
theorem from_usize_roundtrip :
    (∀ l : Level, Level.from_usize l.ord = some l) ∧
    (∀ n : Nat, 5 < n → Level.from_usize n = none) := by
  constructor
  · decide
  · intro n h
    unfold Level.from_usize
    rw [if_neg (by simp [Level.ord]; omega), if_neg (by simp [Level.ord]; omega),
        if_neg (by simp [Level.ord]; omega), if_neg (by simp [Level.ord]; omega),
        if_neg (by simp [Level.ord]; omega), if_neg (by simp [Level.ord]; omega)]

/-- C6 (witness): round-trip at `Trace` (ordinal 5) and rejection at 6. -/
theorem from_usize_roundtrip_witness :
    Level.from_usize Level.Trace.ord = some Level.Trace ∧ Level.from_usize 6 = none :=
  ⟨from_usize_roundtrip.1 Level.Trace, from_usize_roundtrip.2 6 (by decide)⟩

/- ========================= C7 ========================= -/

/-- C7: `from_str` maps every letter-casing of a variant's name (i.e. every
string whose lowercasing equals the name's lowercasing) to that variant,
and every other string to `none`. -/
theorem from_str_case_insensitive :
    (∀ (l : Level) (s : String), strLower s = strLower (levelName l) →
      Level.from_str s = some l) ∧
    (∀ s : String, (∀ l : Level, strLower s ≠ strLower (levelName l)) →
      Level.from_str s = none) := by
  constructor
  · intro l s h
    cases l
    · unfold Level.from_str
      rw [if_pos h]
    · unfold Level.from_str
      rw [if_neg (by rw [h]; decide), if_pos h]
    · unfold Level.from_str
      rw [if_neg (by rw [h]; decide), if_neg (by rw [h]; decide), if_pos h]
    · unfold Level.from_str
      rw [if_neg (by rw [h]; decide), if_neg (by rw [h]; decide),
          if_neg (by rw [h]; decide), if_pos h]
    · unfold Level.from_str
      rw [if_neg (by rw [h]; decide), if_neg (by rw [h]; decide),
          if_neg (by rw [h]; decide), if_neg (by rw [h]; decide), if_pos h]
    · unfold Level.from_str
      rw [if_neg (by rw [h]; decide), if_neg (by rw [h]; decide),
          if_neg (by rw [h]; decide), if_neg (by rw [h]; decide),
          if_neg (by rw [h]; decide), if_pos h]
  · intro s h
    unfold Level.from_str
    rw [if_neg (h .Error), if_neg (h .Warn), if_neg (h .Info),
        if_neg (h .Verb), if_neg (h .Debug), if_neg (h .Trace)]

/-- C7 (witness): a mixed-case spelling of `Error` parses, and a string
that is no casing of any variant name is rejected. -/
theorem from_str_case_insensitive_witness :
    Level.from_str "eRrOr" = some Level.Error ∧ Level.from_str "nope" = none :=
  ⟨from_str_case_insensitive.1 Level.Error "eRrOr" (by decide),
   from_str_case_insensitive.2 "nope" (by decide)⟩

/- ========================= C8 ========================= -/

/-- C8: `format_with_options` returns the value's natural rendering when no
width is requested; with a requested width `w` it never truncates (output
length is at least the natural length) and pads with spaces to at least
`w` columns; `Right` alignment right-justifies the original content; the
alignment defaults to `Left`. -/
theorem format_with_options_spec :
    (∀ (v : String) (a : Option Alignment), format_with_options v none a = v) ∧
    (∀ (v : String) (w : Nat) (a : Option Alignment),
      w ≤ (format_with_options v (some w) a).length ∧
      v.length ≤ (format_with_options v (some w) a).length) ∧
    (∀ (v : String) (w : Nat),
      format_with_options v (some w) (some Alignment.Right) = spaces (w - v.length) ++ v) ∧
    (∀ (v : String) (w : Nat),
      format_with_options v (some w) none = format_with_options v (some w) (some Alignment.Left)) := by
  have hsp : ∀ n : Nat, (spaces n).length = n := by
    intro n
    simp [spaces, String.length]
  refine ⟨fun v a => rfl, ?_, fun v w => rfl, fun v w => rfl⟩
  intro v w a
  match a with
  | none =>
    constructor <;> simp [format_with_options, padRightTo, String.length_append, hsp]
    omega
  | some al =>
    cases al <;>
      constructor <;>
        simp [format_with_options, padRightTo, padLeftTo, padCenterTo,
          String.length_append, hsp] <;>
      omega

/- ========================= C1 ========================= -/

/-- C1 (code bug): the claim — matching the spec — says that whenever the
color policy resolves to false the rendered line is exactly
`[<time> <LEVEL><pad to 5>]: <message>` in every build configuration in
which the Record renders. The `cfg(not(feature = "color"))` build does
exactly that, but the `cfg(feature = "color")` build passes
`contains_ansi_color = true` to the prefix formatter unconditionally, so a
Record whose policy resolved false (here: `colored_output = false`,
`colored_output_forced = false`, hence `enable_terminal_colors` is false
for every terminal attachment) renders its plain level text padded to 14
columns instead of 5. Concretely, with time `"T"`, message `"m"` and level
`Error` the color build emits `"[T Error         ]: m"` (9 trailing
spaces in the level field) instead of the claimed `"[T Error]: m"`. -/
theorem log_color_build_pads_plain_level_to_14 :
    (∀ o e : Bool,
      enable_terminal_colors (Config.mk Level.Warn false false) o e = false) ∧
    log_fmt_color_build (Config.mk Level.Warn false false) "T" "m" Level.Error none none =
      "[T Error         ]: m" ∧
    log_fmt_nocolor_build (Config.mk Level.Warn false false) "T" "m" Level.Error none none =
      "[T Error]: m" ∧
    ("[T Error         ]: m" : String) ≠ "[T Error]: m" := by
  refine ⟨?_, ?_, ?_, ?_⟩ <;> decide

/- ========================= C3 ========================= -/

/-- C3: the run-time gate emits exactly when the record's level is severe
enough for the configured threshold (`config.log_level >= level` on the
derived discriminant order); in particular the Info macro with
`log_level = Warn` computes and writes nothing, while the Error macro
(when compiled in) produces output for every possible `log_level`. -/
theorem emit_gate_exact :
    (∀ (f : Bool) (lvl : Level) (cfg : Config) (text time : String) (o e : Bool),
      (emit_at_level f lvl cfg text time o e).isSome = (f && level_ge cfg.log_level lvl)) ∧
    (∀ (cfg : Config) (text time : String) (o e : Bool), cfg.log_level = Level.Warn →
      emit_at_level true Level.Info cfg text time o e = none) ∧
    (∀ (cfg : Config) (text time : String) (o e : Bool),
      (emit_at_level true Level.Error cfg text time o e).isSome = true) := by
  refine ⟨?_, ?_, ?_⟩
  · intro f lvl cfg text time o e
    unfold emit_at_level
    cases f
    · simp
    · simp only [Bool.true_and]
      by_cases h : level_ge cfg.log_level lvl = true
      · rw [if_pos h, h]
        rfl
      · rw [if_neg h]
        rw [Bool.not_eq_true] at h
        rw [h]
        rfl
  · intro cfg text time o e h
    unfold emit_at_level
    rw [if_pos rfl, if_neg]
    rw [h]
    decide
  · intro cfg text time o e
    unfold emit_at_level
    rw [if_pos rfl, if_pos]
    · rfl
    · cases cfg.log_level <;> decide

/-- C3 (witness): with `log_level = Warn`, `info!` writes nothing while
`error!` writes a line even at the most restrictive threshold `Error`. -/
theorem emit_gate_exact_witness :
    emit_at_level true Level.Info (Config.mk Level.Warn true false) "msg" "T" true true = none ∧
    (emit_at_level true Level.Error (Config.mk Level.Error true false) "msg" "T" true true).isSome
      = true :=
  ⟨emit_gate_exact.2.1 (Config.mk Level.Warn true false) "msg" "T" true true rfl,
   emit_gate_exact.2.2 (Config.mk Level.Error true false) "msg" "T" true true⟩

/-- Processing the loop from index `i0`, every index `i0 + k` that is
divisible by 8 contributes its group header contiguously to the output. -/
theorem hexLoop_header_exists (cfg : Config) (plen digits offset : Nat) :
    ∀ (bs : List Nat) (i0 k : Nat), k < bs.length → (i0 + k) % 8 = 0 →
      ∃ p q, hexLoop cfg plen digits offset i0 bs =
        p ++ (hexHeader plen digits offset (i0 + k) ++ q) := by
  intro bs
  induction bs with
  | nil =>
    intro i0 k hk hmod
    simp at hk
  | cons b rest ih =>
    intro i0 k hk hmod
    cases k with
    | zero =>
      refine ⟨(if i0 ≠ 0 then " " else ""),
        write_formatted_eol_byte b cfg ++ hexLoop cfg plen digits offset (i0 + 1) rest, ?_⟩
      have h8 : i0 % 8 = 0 := by omega
      simp only [hexLoop]
      rw [if_pos h8]
      simp [String.append_assoc]
    | succ j =>
      obtain ⟨p, q, hp⟩ := ih (i0 + 1) j (by simpa using hk) (by omega)
      refine ⟨(if i0 ≠ 0 then " " else "") ++
        ((if i0 % 8 = 0 then hexHeader plen digits offset i0 else "") ++
          (write_formatted_eol_byte b cfg ++ p)), q, ?_⟩
      simp only [hexLoop]
      rw [hp]
      have harith : i0 + 1 + j = i0 + (j + 1) := by omega
      rw [harith]
      simp [String.append_assoc]

/- ========================= C4 ========================= -/

/-- C4 (counterexample): the claim says the running index is rendered
zero-padded to the digit count of the final index. With 10 zero bytes,
offset 0 and time `"T"` (Trace-prefix length 11), the digit-count field
width is 2, so the claimed header for the byte at index 8 would be
`"\n" ++ 11 spaces ++ "08 = "`; the code instead space-pads
(`format!("{current_index:digits$}")` right-aligns with spaces), emitting
`" 8 = "`, so the zero-padded header occurs nowhere in the output. -/
theorem hex_header_zeropad_refuted :
    ¬ substrOf ("\n" ++ spaces 11 ++ "08 = ")
      (highlighted_hex_vec (List.replicate 10 0) 0 (Config.mk Level.Warn false false) "T") := by
  decide

/-- C4 (amended): at each byte whose index is divisible by 8 the output
contains a newline, then indentation equal to the length of a Trace-level
prefix, then the running index `index_offset + index` rendered
right-aligned and space-padded to a field width equal to the digit count
of `index_offset` plus the byte count (one past the final index), then
the three characters `" = "`. -/
theorem hex_header_occurs (vec : List Nat) (offset : Nat) (cfg : Config) (time : String)
    (i : Nat) (hi : i < vec.length) (hmod : i % 8 = 0) :
    substrOf
      (hexHeader ((format_log_message_head time (levelName Level.Trace) false).length)
        (num_digits (offset + vec.length)) offset i)
      (highlighted_hex_vec vec offset cfg time) := by
  obtain ⟨p, q, hp⟩ :=
    hexLoop_header_exists cfg
      ((format_log_message_head time (levelName Level.Trace) false).length)
      (num_digits (offset + vec.length)) offset vec 0 i hi (by simpa using hmod)
  rw [Nat.zero_add] at hp
  have hout : highlighted_hex_vec vec offset cfg time =
      "[" ++ hexLoop cfg ((format_log_message_head time (levelName Level.Trace) false).length)
        (num_digits (offset + vec.length)) offset 0 vec := rfl
  show (hexHeader ((format_log_message_head time (levelName Level.Trace) false).length)
      (num_digits (offset + vec.length)) offset i).data <:+:
    (highlighted_hex_vec vec offset cfg time).data
  rw [hout, hp]
  refine ⟨'[' :: p.data, q.data, ?_⟩
  have hdata : ∀ s t : String, (s ++ t).data = s.data ++ t.data := fun s t => rfl
  have hlb : ("[" : String).data = ['['] := rfl
  simp [hdata, hlb]

/-- C4 (witness): with 10 zero bytes, offset 0 and time `"T"`, the header
of the group starting at index 8 — newline, 11 spaces of indentation, the
index 8 space-padded to width 2, `" = "` — occurs in the output. -/
theorem hex_header_occurs_witness :
    (8 < (List.replicate 10 (0 : Nat)).length ∧ 8 % 8 = 0) ∧
    substrOf
      (hexHeader ((format_log_message_head "T" (levelName Level.Trace) false).length)
        (num_digits (0 + (List.replicate 10 (0 : Nat)).length)) 0 8)
      (highlighted_hex_vec (List.replicate 10 0) 0 (Config.mk Level.Warn false false) "T") :=
  ⟨⟨by decide, by decide⟩,
   hex_header_occurs (List.replicate 10 0) 0 (Config.mk Level.Warn false false) "T" 8
     (by decide) (by decide)⟩

/- ========================= C9 ========================= -/

set_option maxRecDepth 4000 in
/-- C9: the hex renderer returns exactly `"["` on the empty byte sequence;
a 0x0D byte renders as the literal two-character escape `\r` and 0x0A as
`\n` (colorized yellow in the color build exactly when color is enabled),
and every other byte renders as its two-digit lowercase hexadecimal form
(two lowercase-hex characters that decode back to the byte). -/
theorem hex_vec_byte_rendering :
    (∀ (offset : Nat) (cfg : Config) (time : String),
      highlighted_hex_vec [] offset cfg time = "[") ∧
    (∀ cfg : Config,
      write_formatted_eol_byte 13 cfg = "\\r" ∧ write_formatted_eol_byte 10 cfg = "\\n") ∧
    (∀ (cfg : Config) (o e : Bool),
      write_formatted_eol_byte_color 13 cfg o e =
        (if enable_terminal_colors cfg o e then (colorize_ansi 33 "\\r").text else "\\r") ∧
      write_formatted_eol_byte_color 10 cfg o e =
        (if enable_terminal_colors cfg o e then (colorize_ansi 33 "\\n").text else "\\n")) ∧
    (∀ b : Nat, b < 256 → b ≠ 13 → b ≠ 10 → ∀ (cfg : Config) (o e : Bool),
      write_formatted_eol_byte b cfg = hex2 b ∧
      write_formatted_eol_byte_color b cfg o e = hex2 b ∧
      (hex2 b).length = 2 ∧
      (hex2 b).data.all isLowerHexChar = true ∧
      hex2Val (hex2 b) = some b) := by
  refine ⟨fun offset cfg time => rfl, fun cfg => ⟨rfl, rfl⟩, fun cfg o e => ⟨rfl, rfl⟩, ?_⟩
  have h : ∀ b : Nat, b < 256 → b ≠ 13 → b ≠ 10 →
      (hex2 b).length = 2 ∧ (hex2 b).data.all isLowerHexChar = true ∧
      hex2Val (hex2 b) = some b := by
    decide
  intro b hb h13 h10 cfg o e
  refine ⟨?_, ?_, h b hb h13 h10⟩
  · unfold write_formatted_eol_byte
    rw [if_neg h13, if_neg h10]
  · unfold write_formatted_eol_byte_color
    rw [if_neg h13, if_neg h10]

/-- C9 (witness): byte 0x41 (`'A'`) renders as `"41"`, which is two
lowercase-hex characters decoding back to 0x41. -/
theorem hex_vec_byte_rendering_witness :
    write_formatted_eol_byte 65 (Config.mk Level.Warn true false) = hex2 65 ∧
    write_formatted_eol_byte_color 65 (Config.mk Level.Warn true false) true true = hex2 65 ∧
    (hex2 65).length = 2 ∧
    (hex2 65).data.all isLowerHexChar = true ∧
    hex2Val (hex2 65) = some 65 :=
  hex_vec_byte_rendering.2.2.2 65 (by decide) (by decide) (by decide)
    (Config.mk Level.Warn true false) true true

/- ============== helper lemmas for C10 ============== -/

theorem str_data_append (s t : String) : (s ++ t).data = s.data ++ t.data := rfl

theorem str_empty_append (s : String) : "" ++ s = s := rfl

theorem char_ofNat_toNat (m : Nat) : (Char.ofNat m).toNat = m ∨ (Char.ofNat m).toNat = 0 := by
  unfold Char.ofNat
  split
  · left
    rfl
  · right
    rfl

theorem char_ne_of_toNat_ne (c d : Char) (h : c.toNat ≠ d.toNat) : c ≠ d := by
  intro hc
  exact h (by rw [hc])

theorem char_ofNat_ne_nl (m : Nat) (h : m ≠ 10) : Char.ofNat m ≠ '\n' := by
  apply char_ne_of_toNat_ne
  have h0 : ('\n').toNat = 10 := rfl
  rcases char_ofNat_toNat m with hh | hh <;> rw [hh, h0] <;> omega

theorem char_ofNat_ne_space (m : Nat) (h : m ≠ 32) : Char.ofNat m ≠ ' ' := by
  apply char_ne_of_toNat_ne
  have h0 : (' ').toNat = 32 := rfl
  rcases char_ofNat_toNat m with hh | hh <;> rw [hh, h0] <;> omega

theorem hexDigit_ne_nl (n : Nat) : hexDigit n ≠ '\n' := by
  unfold hexDigit
  split
  · exact char_ofNat_ne_nl _ (by omega)
  · exact char_ofNat_ne_nl _ (by omega)

theorem hexDigit_ne_space (n : Nat) : hexDigit n ≠ ' ' := by
  unfold hexDigit
  split
  · exact char_ofNat_ne_space _ (by omega)
  · exact char_ofNat_ne_space _ (by omega)

theorem digitChar_ne_nl (m : Nat) : Nat.digitChar m ≠ '\n' := by
  have hsmall : ∀ k, k < 16 → Nat.digitChar k ≠ '\n' := by decide
  by_cases h : m < 16
  · exact hsmall m h
  · have e0 : m ≠ 0 := by omega
    have e1 : m ≠ 1 := by omega
    have e2 : m ≠ 2 := by omega
    have e3 : m ≠ 3 := by omega
    have e4 : m ≠ 4 := by omega
    have e5 : m ≠ 5 := by omega
    have e6 : m ≠ 6 := by omega
    have e7 : m ≠ 7 := by omega
    have e8 : m ≠ 8 := by omega
    have e9 : m ≠ 9 := by omega
    have ea : m ≠ 10 := by omega
    have eb : m ≠ 11 := by omega
    have ec : m ≠ 12 := by omega
    have ed : m ≠ 13 := by omega
    have ee : m ≠ 14 := by omega
    have ef : m ≠ 15 := by omega
    have hstar : Nat.digitChar m = '*' := by
      unfold Nat.digitChar
      rw [if_neg e0, if_neg e1, if_neg e2, if_neg e3, if_neg e4, if_neg e5, if_neg e6,
        if_neg e7, if_neg e8, if_neg e9, if_neg ea, if_neg eb, if_neg ec, if_neg ed,
        if_neg ee, if_neg ef]
    rw [hstar]
    decide

theorem toDigitsCore_ne_nl :
    ∀ (fuel n : Nat) (acc : List Char), (∀ a ∈ acc, a ≠ '\n') →
      ∀ a ∈ Nat.toDigitsCore 10 fuel n acc, a ≠ '\n' := by
  intro fuel
  induction fuel with
  | zero =>
    intro n acc hacc a ha
    exact hacc a ha
  | succ f ih =>
    intro n acc hacc a ha
    simp only [Nat.toDigitsCore] at ha
    split at ha
    · rcases List.mem_cons.mp ha with h | h
      · subst h
        exact digitChar_ne_nl _
      · exact hacc a h
    · refine ih _ _ ?_ a ha
      intro x hx
      rcases List.mem_cons.mp hx with h | h
      · subst h
        exact digitChar_ne_nl _
      · exact hacc x h

theorem repr_ne_nl (n : Nat) : ∀ a ∈ (Nat.repr n).data, a ≠ '\n' := by
  intro a ha
  exact toDigitsCore_ne_nl (n + 1) n [] (by simp) a ha

theorem spaces_ne_nl (n : Nat) : ∀ a ∈ (spaces n).data, a ≠ '\n' := by
  intro a ha
  have : a = ' ' := (List.mem_replicate.mp ha).2
  rw [this]
  decide

theorem padNum_ne_nl (w m : Nat) : ∀ a ∈ (padNum w m).data, a ≠ '\n' := by
  intro a ha
  rw [padNum, padLeftTo, str_data_append] at ha
  rcases List.mem_append.mp ha with h | h
  · exact spaces_ne_nl _ a h
  · exact repr_ne_nl m a h

theorem wb_ne_nl (b : Nat) (cfg : Config) :
    ∀ a ∈ (write_formatted_eol_byte b cfg).data, a ≠ '\n' := by
  intro a ha
  unfold write_formatted_eol_byte at ha
  split at ha
  · have hd : ("\\r" : String).data = ['\\', 'r'] := rfl
    rw [hd] at ha
    rcases List.mem_cons.mp ha with h | h
    · rw [h]
      decide
    · rcases List.mem_cons.mp h with h2 | h2
      · rw [h2]
        decide
      · simp at h2
  · split at ha
    · have hd : ("\\n" : String).data = ['\\', 'n'] := rfl
      rw [hd] at ha
      rcases List.mem_cons.mp ha with h | h
      · rw [h]
        decide
      · rcases List.mem_cons.mp h with h2 | h2
        · rw [h2]
          decide
        · simp at h2
    · have hd : (hex2 b).data = [hexDigit (b / 16), hexDigit (b % 16)] := rfl
      rw [hd] at ha
      rcases List.mem_cons.mp ha with h | h
      · rw [h]
        exact hexDigit_ne_nl _
      · rcases List.mem_cons.mp h with h2 | h2
        · rw [h2]
          exact hexDigit_ne_nl _
        · simp at h2

theorem wb_head (b : Nat) (cfg : Config) :
    ∃ ch cs, (write_formatted_eol_byte b cfg).data = ch :: cs ∧ ch ≠ ' ' := by
  unfold write_formatted_eol_byte
  split
  · exact ⟨'\\', ['r'], rfl, by decide⟩
  · split
    · exact ⟨'\\', ['n'], rfl, by decide⟩
    · exact ⟨hexDigit (b / 16), [hexDigit (b % 16)], rfl, hexDigit_ne_space _⟩

theorem bytesRest_ne_nl (cfg : Config) :
    ∀ g : List Nat, ∀ a ∈ (bytesRest cfg g).data, a ≠ '\n' := by
  intro g
  induction g with
  | nil =>
    intro a ha
    simp [bytesRest] at ha
  | cons b bs ih =>
    intro a ha
    simp only [bytesRest, str_data_append] at ha
    rcases List.mem_append.mp ha with h | h
    · rcases List.mem_append.mp h with h2 | h2
      · rcases List.mem_cons.mp h2 with h3 | h3
        · rw [h3]
          decide
        · simp at h3
      · exact wb_ne_nl b cfg a h2
    · exact ih a h

theorem bytesLine_ne_nl (cfg : Config) :
    ∀ g : List Nat, ∀ a ∈ (bytesLine cfg g).data, a ≠ '\n' := by
  intro g
  cases g with
  | nil =>
    intro a ha
    simp [bytesLine] at ha
  | cons b bs =>
    intro a ha
    simp only [bytesLine, str_data_append] at ha
    rcases List.mem_append.mp ha with h | h
    · exact wb_ne_nl b cfg a h
    · exact bytesRest_ne_nl cfg bs a h

theorem lineBody_ne_nl (cfg : Config) (plen digits offset k : Nat) (g : List Nat) :
    ∀ a ∈ (lineBody cfg plen digits offset k g).data, a ≠ '\n' := by
  intro a ha
  simp only [lineBody, str_data_append] at ha
  rcases List.mem_append.mp ha with h | h
  · rcases List.mem_append.mp h with h2 | h2
    · rcases List.mem_append.mp h2 with h3 | h3
      · exact spaces_ne_nl plen a h3
      · exact padNum_ne_nl _ _ a h3
    · rcases List.mem_cons.mp h2 with h4 | h4
      · rw [h4]
        decide
      · rcases List.mem_cons.mp h4 with h5 | h5
        · rw [h5]
          decide
        · rcases List.mem_cons.mp h5 with h6 | h6
          · rw [h6]
            decide
          · simp at h6
  · exact bytesLine_ne_nl cfg g a h

theorem splitChar_ne_nil (c : Char) : ∀ l : List Char, splitChar c l ≠ [] := by
  intro l
  induction l with
  | nil => simp [splitChar]
  | cons a rest ih =>
    simp only [splitChar]
    split
    · simp
    · split
      · simp
      · simp

theorem splitChar_sep (c : Char) (ys : List Char) :
    splitChar c (c :: ys) = [] :: splitChar c ys := by
  simp [splitChar]

theorem splitChar_append_left (c : Char) :
    ∀ (xs ys : List Char), (∀ a ∈ xs, a ≠ c) →
      splitChar c (xs ++ ys) =
        (xs ++ (splitChar c ys).headI) :: (splitChar c ys).tail := by
  intro xs
  induction xs with
  | nil =>
    intro ys h
    simp only [List.nil_append]
    cases hys : splitChar c ys with
    | nil => exact absurd hys (splitChar_ne_nil c ys)
    | cons l ls => simp
  | cons a xs ih =>
    intro ys h
    have ha : a ≠ c := h a (List.mem_cons_self a xs)
    simp only [List.cons_append, splitChar, List.append_eq]
    rw [if_neg ha]
    rw [ih ys (fun x hx => h x (List.mem_cons_of_mem a hx))]

theorem splitChar_single (c : Char) (xs : List Char) (h : ∀ a ∈ xs, a ≠ c) :
    splitChar c xs = [xs] := by
  have hx := splitChar_append_left c xs [] h
  simpa [splitChar] using hx

theorem hexLoop_append (cfg : Config) (plen digits offset : Nat) :
    ∀ (xs ys : List Nat) (i : Nat),
      hexLoop cfg plen digits offset i (xs ++ ys) =
        hexLoop cfg plen digits offset i xs ++
          hexLoop cfg plen digits offset (i + xs.length) ys := by
  intro xs
  induction xs with
  | nil =>
    intro ys i
    show hexLoop cfg plen digits offset i ys =
      "" ++ hexLoop cfg plen digits offset (i + 0) ys
    rw [Nat.add_zero, str_empty_append]
  | cons x xs ih =>
    intro ys i
    simp only [List.cons_append, hexLoop, List.append_eq]
    rw [ih ys (i + 1)]
    have hidx : i + 1 + xs.length = i + (x :: xs).length := by
      simp only [List.length_cons]
      omega
    rw [hidx]
    simp [String.append_assoc]

theorem hexLoop_inner (cfg : Config) (plen digits offset : Nat) :
    ∀ (g : List Nat) (i : Nat), i % 8 ≠ 0 → i % 8 + g.length ≤ 8 →
      hexLoop cfg plen digits offset i g = bytesRest cfg g := by
  intro g
  induction g with
  | nil =>
    intro i h1 h2
    rfl
  | cons b bs ih =>
    intro i h1 h2
    have hi0 : i ≠ 0 := by omega
    simp only [List.length_cons] at h2
    simp only [hexLoop, bytesRest]
    rw [if_pos hi0, if_neg h1]
    cases bs with
    | nil =>
      rfl
    | cons b2 bs2 =>
      have hlen : i % 8 + (bs2.length + 1) + 1 ≤ 8 := by
        simp only [List.length_cons] at h2
        omega
      rw [ih (i + 1) (by omega) (by simp only [List.length_cons]; omega)]
      rfl

theorem hexLoop_chunk (cfg : Config) (plen digits offset : Nat) (l : List Nat) (k : Nat)
    (hl : l ≠ []) :
    hexLoop cfg plen digits offset (8 * k) l =
      (if k = 0 then "" else " ") ++ "\n" ++
        lineBody cfg plen digits offset k (l.take 8) ++
        hexLoop cfg plen digits offset (8 * (k + 1)) (l.drop 8) := by
  cases l with
  | nil => exact absurd rfl hl
  | cons b bs =>
    simp only [hexLoop]
    have h8 : 8 * k % 8 = 0 := by omega
    rw [if_pos h8]
    have hsep : ((if (8 * k ≠ 0) then " " else "") : String) = (if k = 0 then "" else " ") := by
      by_cases hk : k = 0
      · subst hk
        simp
      · rw [if_pos (by omega), if_neg hk]
    rw [hsep]
    have htake : (b :: bs).take 8 = b :: bs.take 7 := rfl
    have hdrop : (b :: bs).drop 8 = bs.drop 7 := rfl
    rw [htake, hdrop]
    conv_lhs => rw [← List.take_append_drop 7 bs]
    rw [hexLoop_append cfg plen digits offset]
    rw [hexLoop_inner cfg plen digits offset (bs.take 7) (8 * k + 1) (by omega)
      (by simp only [List.length_take]; omega)]
    by_cases hlen7 : bs.length ≤ 7
    · have hd : bs.drop 7 = [] := List.drop_eq_nil_iff.mpr hlen7
      rw [hd]
      simp [hexHeader, lineBody, bytesLine, hexLoop, String.append_assoc]
    · have h7 : (bs.take 7).length = 7 := by
        simp only [List.length_take]
        omega
      rw [h7]
      have hidx : 8 * k + 1 + 7 = 8 * (k + 1) := by omega
      rw [hidx]
      simp [hexHeader, lineBody, bytesLine, String.append_assoc]

theorem hexLoop_splitChar (cfg : Config) (plen digits offset : Nat) :
    ∀ (n : Nat) (l : List Nat), l.length ≤ n → l ≠ [] → ∀ k : Nat,
      splitChar '\n' (hexLoop cfg plen digits offset (8 * k) l).data =
        (if k = 0 then [] else [' ']) ::
          (hexLinesFrom cfg plen digits offset k l).map String.data := by
  intro n
  induction n with
  | zero =>
    intro l hn hl k
    cases l with
    | nil => exact absurd rfl hl
    | cons b bs => simp at hn
  | succ n ih =>
    intro l hn hl k
    cases l with
    | nil => exact absurd rfl hl
    | cons b bs =>
      rw [hexLoop_chunk cfg plen digits offset (b :: bs) k (by simp)]
      rw [str_data_append, str_data_append, str_data_append]
      have hnl : ("\n" : String).data = ['\n'] := rfl
      rw [hnl]
      rw [List.append_assoc, List.append_assoc, List.singleton_append]
      have hsepne : ∀ a ∈ ((if k = 0 then "" else " ") : String).data, a ≠ '\n' := by
        by_cases hk : k = 0
        · rw [if_pos hk]
          intro a ha
          simp at ha
        · rw [if_neg hk]
          intro a ha
          simp at ha
          rw [ha]
          decide
      rw [splitChar_append_left '\n' _ _ hsepne]
      rw [splitChar_sep]
      simp only [List.headI_cons, List.tail_cons, List.append_nil]
      have hsepdata : ((if k = 0 then "" else " ") : String).data =
          (if k = 0 then [] else [' ']) := by
        by_cases hk : k = 0
        · rw [if_pos hk, if_pos hk]
        · rw [if_neg hk, if_neg hk]
      rw [hsepdata]
      have htake : (b :: bs).take 8 = b :: bs.take 7 := rfl
      have hdrop : (b :: bs).drop 8 = bs.drop 7 := rfl
      rw [htake, hdrop]
      by_cases hd : bs.drop 7 = []
      · rw [hd]
        have hnil : hexLoop cfg plen digits offset (8 * (k + 1)) ([] : List Nat) = "" := rfl
        rw [hnil]
        have hemp : ("" : String).data = [] := rfl
        rw [hemp, List.append_nil]
        rw [splitChar_single '\n' _ (lineBody_ne_nl cfg plen digits offset k (b :: bs.take 7))]
        simp only [hexLinesFrom]
        rw [if_pos hd]
        rfl
      · have hfuel : (bs.drop 7).length ≤ n := by
          simp only [List.length_cons] at hn
          rw [List.length_drop]
          omega
        have hrec := ih (bs.drop 7) hfuel hd (k + 1)
        rw [if_neg (Nat.succ_ne_zero k)] at hrec
        rw [splitChar_append_left '\n' _ _ (lineBody_ne_nl cfg plen digits offset k (b :: bs.take 7))]
        rw [hrec]
        simp only [List.headI_cons, List.tail_cons]
        simp only [hexLinesFrom]
        rw [if_neg hd]
        simp only [List.map_cons]
        rw [str_data_append]

theorem hexLinesFrom_ne_nil (cfg : Config) (plen digits offset k : Nat) (l : List Nat)
    (hl : l ≠ []) : hexLinesFrom cfg plen digits offset k l ≠ [] := by
  cases l with
  | nil => exact absurd rfl hl
  | cons b bs =>
    simp only [hexLinesFrom]
    split
    · simp
    · simp

theorem hexLinesFrom_two_le (cfg : Config) (plen digits offset k : Nat) (l : List Nat)
    (hl : 8 < l.length) : 2 ≤ (hexLinesFrom cfg plen digits offset k l).length := by
  cases l with
  | nil => simp at hl
  | cons b bs =>
    have hd : bs.drop 7 ≠ [] := by
      intro h
      have h2 := List.drop_eq_nil_iff.mp h
      simp only [List.length_cons] at hl
      omega
    simp only [hexLinesFrom]
    rw [if_neg hd]
    simp only [List.length_cons]
    have h1 := List.length_pos.mpr (hexLinesFrom_ne_nil cfg plen digits offset (k + 1)
      (bs.drop 7) hd)
    omega

theorem hexLinesFrom_getq_last (cfg : Config) (plen digits offset : Nat) :
    ∀ (n : Nat) (l : List Nat), l.length ≤ n → ∀ (k i : Nat),
      i + 1 < (hexLinesFrom cfg plen digits offset k l).length →
      ∃ s : String, (hexLinesFrom cfg plen digits offset k l).get? i = some s ∧
        s.data.getLast? = some ' ' := by
  intro n
  induction n with
  | zero =>
    intro l hn k i hi
    cases l with
    | nil => simp [hexLinesFrom] at hi
    | cons b bs => simp at hn
  | succ n ih =>
    intro l hn k i hi
    cases l with
    | nil => simp [hexLinesFrom] at hi
    | cons b bs =>
      by_cases hd : bs.drop 7 = []
      · exfalso
        simp only [hexLinesFrom, if_pos hd, List.length_singleton] at hi
        omega
      · have heq : hexLinesFrom cfg plen digits offset k (b :: bs) =
            (lineBody cfg plen digits offset k (b :: bs.take 7) ++ " ") ::
              hexLinesFrom cfg plen digits offset (k + 1) (bs.drop 7) := by
          simp only [hexLinesFrom]
          rw [if_neg hd]
        rw [heq] at hi ⊢
        cases i with
        | zero =>
          refine ⟨lineBody cfg plen digits offset k (b :: bs.take 7) ++ " ", rfl, ?_⟩
          have hdata : (lineBody cfg plen digits offset k (b :: bs.take 7) ++ " ").data =
              (lineBody cfg plen digits offset k (b :: bs.take 7)).data ++ [' '] := rfl
          rw [hdata]
          exact List.getLast?_concat _
        | succ j =>
          simp only [List.get?_cons_succ]
          simp only [List.length_cons] at hi
          refine ih (bs.drop 7) ?_ (k + 1) j (by omega)
          simp only [List.length_cons] at hn
          rw [List.length_drop]
          omega

theorem hexLinesFrom_getq_head (cfg : Config) (plen digits offset : Nat) :
    ∀ (n : Nat) (l : List Nat), l.length ≤ n → ∀ (k i : Nat),
      i < (hexLinesFrom cfg plen digits offset k l).length →
      ∃ (s : String) (rest : List Char),
        (hexLinesFrom cfg plen digits offset k l).get? i = some s ∧
        s.data = (spaces plen).data ++ (padNum digits (8 * (k + i) + offset)).data ++
          [' ', '=', ' '] ++ rest ∧
        rest.head? ≠ some ' ' := by
  intro n
  induction n with
  | zero =>
    intro l hn k i hi
    cases l with
    | nil => simp [hexLinesFrom] at hi
    | cons b bs => simp at hn
  | succ n ih =>
    intro l hn k i hi
    cases l with
    | nil => simp [hexLinesFrom] at hi
    | cons b bs =>
      obtain ⟨ch, cs, hch, hchs⟩ := wb_head b cfg
      have hbl : (bytesLine cfg (b :: bs.take 7)).data =
          ch :: (cs ++ (bytesRest cfg (bs.take 7)).data) := by
        simp only [bytesLine, str_data_append]
        rw [hch]
        simp [List.cons_append]
      have hline : (lineBody cfg plen digits offset k (b :: bs.take 7)).data =
          (spaces plen).data ++ (padNum digits (8 * k + offset)).data ++ [' ', '=', ' '] ++
            (ch :: (cs ++ (bytesRest cfg (bs.take 7)).data)) := by
        simp only [lineBody, str_data_append]
        rw [hbl]
      by_cases hd : bs.drop 7 = []
      · have heq : hexLinesFrom cfg plen digits offset k (b :: bs) =
            [lineBody cfg plen digits offset k (b :: bs.take 7)] := by
          simp only [hexLinesFrom]
          rw [if_pos hd]
        rw [heq] at hi ⊢
        simp only [List.length_singleton] at hi
        have hi0 : i = 0 := by omega
        subst hi0
        refine ⟨lineBody cfg plen digits offset k (b :: bs.take 7),
          ch :: (cs ++ (bytesRest cfg (bs.take 7)).data), rfl, ?_, ?_⟩
        · rw [hline]
          simp
        · intro hcon
          simp only [List.head?_cons, Option.some.injEq] at hcon
          exact hchs hcon
      · have heq : hexLinesFrom cfg plen digits offset k (b :: bs) =
            (lineBody cfg plen digits offset k (b :: bs.take 7) ++ " ") ::
              hexLinesFrom cfg plen digits offset (k + 1) (bs.drop 7) := by
          simp only [hexLinesFrom]
          rw [if_neg hd]
        rw [heq] at hi ⊢
        cases i with
        | zero =>
          refine ⟨lineBody cfg plen digits offset k (b :: bs.take 7) ++ " ",
            ch :: (cs ++ (bytesRest cfg (bs.take 7)).data ++ [' ']), rfl, ?_, ?_⟩
          · rw [str_data_append, hline]
            have hsp : (" " : String).data = [' '] := rfl
            rw [hsp]
            simp [List.append_assoc, List.cons_append]
          · intro hcon
            simp only [List.head?_cons, Option.some.injEq] at hcon
            exact hchs hcon
        | succ j =>
          simp only [List.get?_cons_succ]
          simp only [List.length_cons] at hi
          have hfuel : (bs.drop 7).length ≤ n := by
            simp only [List.length_cons] at hn
            rw [List.length_drop]
            omega
          have hrec := ih (bs.drop 7) hfuel (k + 1) j (by omega)
          obtain ⟨s, rest, hs, hsd, hr⟩ := hrec
          refine ⟨s, rest, hs, ?_, hr⟩
          have hk : 8 * (k + 1 + j) = 8 * (k + (j + 1)) := by omega
          rw [hk] at hsd
          exact hsd

/- ========================= C10 ========================= -/

set_option maxRecDepth 8000 in
/-- C10 (counterexample): the claim says every line of the hex dump except
the last ends with a trailing space. With 9 zero bytes, offset 0 and time
`"T"` the output has three lines; the first line is the lone `"["`, which
is not the last line and does not end with a space. -/
theorem hex_first_line_no_trailing_space :
    ¬ (∀ (i : Nat)
        (h : i < (hexOutputLines (List.replicate 9 0) 0 (Config.mk Level.Warn false false)
          "T").length),
        i + 1 < (hexOutputLines (List.replicate 9 0) 0 (Config.mk Level.Warn false false)
          "T").length →
        ((hexOutputLines (List.replicate 9 0) 0 (Config.mk Level.Warn false false)
          "T").get ⟨i, h⟩).getLast? = some ' ') := by
  intro hcl
  have h0 := hcl 0 (by decide) (by decide)
  revert h0
  decide

/-- C10 (amended): for every byte sequence of length greater than 8, the
separating space belonging to a byte at a nonzero group boundary is
appended before that group's newline and header, so: the dump has at
least three lines; the first line is the lone `"["`; every line except
the first and the last ends with a trailing space; and every continuation
line consists of the indentation, the space-padded running index,
`" = "`, and then immediately the first byte's rendering — not a space. -/
theorem hex_dump_line_layout (vec : List Nat) (offset : Nat) (cfg : Config) (time : String)
    (hlen : 8 < vec.length) :
    3 ≤ (hexOutputLines vec offset cfg time).length ∧
    (hexOutputLines vec offset cfg time).head? = some ['['] ∧
    (∀ (i : Nat) (h : i < (hexOutputLines vec offset cfg time).length), 1 ≤ i →
      i + 1 < (hexOutputLines vec offset cfg time).length →
      ((hexOutputLines vec offset cfg time).get ⟨i, h⟩).getLast? = some ' ') ∧
    (∀ (i : Nat) (h : i < (hexOutputLines vec offset cfg time).length), 1 ≤ i →
      ∃ rest : List Char,
        (hexOutputLines vec offset cfg time).get ⟨i, h⟩ =
          (spaces ((format_log_message_head time (levelName Level.Trace) false).length)).data ++
            (padNum (num_digits (offset + vec.length)) (8 * (i - 1) + offset)).data ++
            [' ', '=', ' '] ++ rest ∧
        rest.head? ≠ some ' ') := by
  have hvne : vec ≠ [] := by
    intro hv
    rw [hv] at hlen
    simp at hlen
  have hmain : hexOutputLines vec offset cfg time =
      ['['] :: (hexLinesFrom cfg
        ((format_log_message_head time (levelName Level.Trace) false).length)
        (num_digits (offset + vec.length)) offset 0 vec).map String.data := by
    show splitChar '\n' (highlighted_hex_vec vec offset cfg time).data = _
    have hout : highlighted_hex_vec vec offset cfg time =
        "[" ++ hexLoop cfg
          ((format_log_message_head time (levelName Level.Trace) false).length)
          (num_digits (offset + vec.length)) offset 0 vec := rfl
    rw [hout, str_data_append]
    have hlb : ("[" : String).data = ['['] := rfl
    rw [hlb]
    have hm := hexLoop_splitChar cfg
      ((format_log_message_head time (levelName Level.Trace) false).length)
      (num_digits (offset + vec.length)) offset vec.length vec le_rfl hvne 0
    norm_num at hm
    rw [splitChar_append_left '\n' ['['] _ ?hbr]
    case hbr =>
      intro a ha
      simp at ha
      rw [ha]
      decide
    rw [hm]
    simp
  have hlenX : (hexOutputLines vec offset cfg time).length =
      (hexLinesFrom cfg ((format_log_message_head time (levelName Level.Trace) false).length)
        (num_digits (offset + vec.length)) offset 0 vec).length + 1 := by
    rw [hmain]
    simp
  refine ⟨?_, ?_, ?_, ?_⟩
  · rw [hlenX]
    have h2 := hexLinesFrom_two_le cfg
      ((format_log_message_head time (levelName Level.Trace) false).length)
      (num_digits (offset + vec.length)) offset 0 vec hlen
    omega
  · rw [hmain]
    rfl
  · intro i h h1 h2
    cases i with
    | zero => omega
    | succ j =>
      rw [hlenX] at h2
      obtain ⟨s, hs, hlast⟩ := hexLinesFrom_getq_last cfg
        ((format_log_message_head time (levelName Level.Trace) false).length)
        (num_digits (offset + vec.length)) offset vec.length vec le_rfl 0 j (by omega)
      have hq : (hexOutputLines vec offset cfg time).get? (j + 1) =
          ((hexLinesFrom cfg
            ((format_log_message_head time (levelName Level.Trace) false).length)
            (num_digits (offset + vec.length)) offset 0 vec).map String.data).get? j := by
        rw [hmain, List.get?_cons_succ]
      rw [List.get?_map, hs] at hq
      simp only [Option.map_some'] at hq
      have hx := List.get?_eq_get h
      rw [hq] at hx
      have hsx := Option.some.inj hx
      rw [← hsx]
      exact hlast
  · intro i h h1
    cases i with
    | zero => omega
    | succ j =>
      have hjlt : j < (hexLinesFrom cfg
          ((format_log_message_head time (levelName Level.Trace) false).length)
          (num_digits (offset + vec.length)) offset 0 vec).length := by
        rw [hlenX] at h
        omega
      obtain ⟨s, rest, hs, hsd, hr⟩ := hexLinesFrom_getq_head cfg
        ((format_log_message_head time (levelName Level.Trace) false).length)
        (num_digits (offset + vec.length)) offset vec.length vec le_rfl 0 j hjlt
      have hq : (hexOutputLines vec offset cfg time).get? (j + 1) =
          ((hexLinesFrom cfg
            ((format_log_message_head time (levelName Level.Trace) false).length)
            (num_digits (offset + vec.length)) offset 0 vec).map String.data).get? j := by
        rw [hmain, List.get?_cons_succ]
      rw [List.get?_map, hs] at hq
      simp only [Option.map_some'] at hq
      have hx := List.get?_eq_get h
      rw [hq] at hx
      have hsx := Option.some.inj hx
      refine ⟨rest, ?_, hr⟩
      rw [← hsx, hsd]
      have hidx : 8 * (0 + j) + offset = 8 * (j + 1 - 1) + offset := by omega
      rw [hidx]

/-- C10 (witness): with 9 zero bytes, offset 0 and time `"T"`, the layout
properties of the amended claim hold. -/
theorem hex_dump_line_layout_witness :
    8 < (List.replicate 9 (0 : Nat)).length ∧
    (3 ≤ (hexOutputLines (List.replicate 9 0) 0 (Config.mk Level.Warn true false) "T").length ∧
      (hexOutputLines (List.replicate 9 0) 0 (Config.mk Level.Warn true false) "T").head? =
        some ['['] ∧
      (∀ (i : Nat)
        (h : i < (hexOutputLines (List.replicate 9 0) 0 (Config.mk Level.Warn true false)
          "T").length), 1 ≤ i →
        i + 1 < (hexOutputLines (List.replicate 9 0) 0 (Config.mk Level.Warn true false)
          "T").length →
        ((hexOutputLines (List.replicate 9 0) 0 (Config.mk Level.Warn true false)
          "T").get ⟨i, h⟩).getLast? = some ' ') ∧
      (∀ (i : Nat)
        (h : i < (hexOutputLines (List.replicate 9 0) 0 (Config.mk Level.Warn true false)
          "T").length), 1 ≤ i →
        ∃ rest : List Char,
          (hexOutputLines (List.replicate 9 0) 0 (Config.mk Level.Warn true false)
            "T").get ⟨i, h⟩ =
            (spaces ((format_log_message_head "T" (levelName Level.Trace) false).length)).data ++
              (padNum (num_digits (0 + (List.replicate 9 (0 : Nat)).length))
                (8 * (i - 1) + 0)).data ++
              [' ', '=', ' '] ++ rest ∧
          rest.head? ≠ some ' ')) :=
  ⟨by decide,
   hex_dump_line_layout (List.replicate 9 0) 0 (Config.mk Level.Warn true false) "T" (by decide)⟩

end Httpd
